import Mathlib

/-!
Verification of the sgqlc GraphQL type system core (`sgqlc/types/__init__.py`).

This file gives a shallow embedding of the schema type registry and the
bidirectional GraphQL/native codec of the source module, and proves or refutes
the frozen specification claims about it.

Embedding overview:
* `JSON` models the JSON value trees that `decode` consumes and
  `__to_json_value__` produces (floating point scalars are out of scope; no
  claim involves `Float`).
* `GType` models a Type Descriptor: the five built-in scalar behaviours, enums
  with their choices, container types with their ordered field table, and the
  two generated wrapper behaviours (`non_null`, `list_of`).
* `decodeN` / `decodeS` / `decode` model calling a type descriptor on JSON data
  (`Scalar.__new__`, `Enum.__new__`, the wrapper `__new__`s and
  `ContainerType.__init__`), with and without a selection list.
* `toJsonValue` models `__to_json_value__` dispatch.
* `containerSetattr` models `ContainerType.__setattr__` on a fully constructed
  instance.
* `SchemaSt`/`schemaIadd`/`schemaIsub`/`schemaNew` model `Schema` registration,
  and `WrapSt`/`non_null`/`list_of` model the per-schema wrapper cache of the
  factory functions, with wrapper identity tracked by a freshness counter
  (Python object identity of the dynamically created classes).
-/

/-- JSON value trees, as produced by `json.loads`: `None`, `int`, `str`,
`bool`, `list`, `dict` (insertion-ordered association list). Floating point
numbers are outside the scope of this embedding. -/
inductive JSON where
  | null
  | num (n : Int)
  | str (s : String)
  | bool (b : Bool)
  | arr (elems : List JSON)
  | obj (members : List (String × JSON))
deriving Repr

mutual

/-- Boolean equality on `JSON` (deriving `DecidableEq` is unavailable for this
nested inductive, so equality is defined by hand and proved lawful below). -/
def jeq : JSON → JSON → Bool
  | .null, .null => true
  | .num a, .num b => a == b
  | .str a, .str b => a == b
  | .bool a, .bool b => a == b
  | .arr xs, .arr ys => jeqItems xs ys
  | .obj xs, .obj ys => jeqPairs xs ys
  | _, _ => false

/-- Elementwise `jeq` on JSON arrays. -/
def jeqItems : List JSON → List JSON → Bool
  | [], [] => true
  | x :: xs, y :: ys => jeq x y && jeqItems xs ys
  | _, _ => false

/-- Pairwise `jeq` on JSON object members. -/
def jeqPairs : List (String × JSON) → List (String × JSON) → Bool
  | [], [] => true
  | (k1, v1) :: xs, (k2, v2) :: ys => k1 == k2 && jeq v1 v2 && jeqPairs xs ys
  | _, _ => false

end

mutual

theorem jeq_iff : ∀ a b, jeq a b = true ↔ a = b
  | .null, .null => by simp [jeq]
  | .num _, .num _ => by simp [jeq]
  | .str _, .str _ => by simp [jeq]
  | .bool _, .bool _ => by simp [jeq]
  | .arr xs, .arr ys => by
      simp only [jeq, jeqItems_iff xs ys]
      exact ⟨fun h => by rw [h], fun h => by injection h⟩
  | .obj xs, .obj ys => by
      simp only [jeq, jeqPairs_iff xs ys]
      exact ⟨fun h => by rw [h], fun h => by injection h⟩
  | .null, .num _ => by simp [jeq]
  | .null, .str _ => by simp [jeq]
  | .null, .bool _ => by simp [jeq]
  | .null, .arr _ => by simp [jeq]
  | .null, .obj _ => by simp [jeq]
  | .num _, .null => by simp [jeq]
  | .num _, .str _ => by simp [jeq]
  | .num _, .bool _ => by simp [jeq]
  | .num _, .arr _ => by simp [jeq]
  | .num _, .obj _ => by simp [jeq]
  | .str _, .null => by simp [jeq]
  | .str _, .num _ => by simp [jeq]
  | .str _, .bool _ => by simp [jeq]
  | .str _, .arr _ => by simp [jeq]
  | .str _, .obj _ => by simp [jeq]
  | .bool _, .null => by simp [jeq]
  | .bool _, .num _ => by simp [jeq]
  | .bool _, .str _ => by simp [jeq]
  | .bool _, .arr _ => by simp [jeq]
  | .bool _, .obj _ => by simp [jeq]
  | .arr _, .null => by simp [jeq]
  | .arr _, .num _ => by simp [jeq]
  | .arr _, .str _ => by simp [jeq]
  | .arr _, .bool _ => by simp [jeq]
  | .arr _, .obj _ => by simp [jeq]
  | .obj _, .null => by simp [jeq]
  | .obj _, .num _ => by simp [jeq]
  | .obj _, .str _ => by simp [jeq]
  | .obj _, .bool _ => by simp [jeq]
  | .obj _, .arr _ => by simp [jeq]

theorem jeqItems_iff : ∀ xs ys, jeqItems xs ys = true ↔ xs = ys
  | [], [] => by simp [jeqItems]
  | [], _ :: _ => by simp [jeqItems]
  | _ :: _, [] => by simp [jeqItems]
  | x :: xs, y :: ys => by
      simp [jeqItems, jeq_iff x y, jeqItems_iff xs ys]

theorem jeqPairs_iff : ∀ xs ys, jeqPairs xs ys = true ↔ xs = ys
  | [], [] => by simp [jeqPairs]
  | [], _ :: _ => by simp [jeqPairs]
  | _ :: _, [] => by simp [jeqPairs]
  | (_, v1) :: xs, (_, v2) :: ys => by
      simp [jeqPairs, jeq_iff v1 v2, jeqPairs_iff xs ys]

end

instance : DecidableEq JSON := fun a b => decidable_of_iff _ (jeq_iff a b)

/-- First-match lookup in an association list, modelling Python `dict`
indexing (`d[k]`) and membership (`k in d`); keys of a Python dict are
unique, so first-match agrees with it. -/
def lookupAssoc {κ α : Type} [DecidableEq κ] : List (κ × α) → κ → Option α
  | [], _ => none
  | (k2, v) :: rest, k => if k2 = k then some v else lookupAssoc rest k

/-- Update-or-append on an association list, modelling Python `d[k] = v`:
an existing key keeps its position, a new key is appended at the end. -/
def setAssoc {κ α : Type} [DecidableEq κ] : List (κ × α) → κ → α → List (κ × α)
  | [], k, v => [(k, v)]
  | (k2, w) :: rest, k, v =>
      if k2 = k then (k, v) :: rest else (k2, w) :: setAssoc rest k v

/-- Key removal on an association list, modelling Python `del d[k]` (keys are
unique, so removing the first match removes the key). -/
def removeAssoc {κ α : Type} [DecidableEq κ] : List (κ × α) → κ → List (κ × α)
  | [], _ => []
  | (k2, v) :: rest, k => if k2 = k then rest else (k2, v) :: removeAssoc rest k

/-- Digit-string accumulator for `parsePyInt`. -/
def digitsValAux (acc : Nat) : List Char → Option Nat
  | [] => some acc
  | c :: cs =>
      if c.isDigit then digitsValAux (acc * 10 + (c.toNat - 48)) cs else none

/-- Whitespace stripping on both ends, as `int()` applies to its string
argument. -/
def trimChars (cs : List Char) : List Char :=
  ((cs.dropWhile Char.isWhitespace).reverse.dropWhile Char.isWhitespace).reverse

/-- Python `int(s)` on a string: optional surrounding whitespace, optional
sign, then decimal digits. (Underscore separators, non-decimal bases and
non-ASCII digits accepted by CPython are outside the scope of this embedding;
no claim exercises them.) -/
def parsePyInt (s : String) : Option Int :=
  match trimChars s.toList with
  | [] => none
  | c :: cs =>
      if c = '-' then
        match cs with
        | [] => none
        | _ => (digitsValAux 0 cs).map (fun n => -(n : Int))
      else if c = '+' then
        match cs with
        | [] => none
        | _ => (digitsValAux 0 cs).map (fun n => (n : Int))
      else (digitsValAux 0 (c :: cs)).map (fun n => (n : Int))

/-- Python truthiness `bool(x)` of a JSON value: zero, empty string, empty
list, empty dict and `None`/`False` are falsy. -/
def pyTruthyJSON : JSON → Bool
  | .null => false
  | .bool b => b
  | .num n => decide (n ≠ 0)
  | .str s => decide (s ≠ "")
  | .arr xs => decide (xs ≠ [])
  | .obj ms => decide (ms ≠ [])

mutual

/-- Python `str(x)` of a JSON value (`String.converter` and `ID.converter`
are the builtin `str`). Lists and dicts render via `repr` of their elements,
as CPython does. -/
def pyStr : JSON → String
  | .null => "None"
  | .bool b => if b then "True" else "False"
  | .num n => toString n
  | .str s => s
  | .arr xs => "[" ++ pyReprSeq xs ++ "]"
  | .obj ms => "\x7b" ++ pyReprMembers ms ++ "\x7d"

/-- Python `repr(x)` of a JSON value (strings gain quotes; quote escaping
inside strings is out of scope). -/
def pyRepr : JSON → String
  | .null => "None"
  | .bool b => if b then "True" else "False"
  | .num n => toString n
  | .str s => (Char.ofNat 39).toString ++ s ++ (Char.ofNat 39).toString
  | .arr xs => "[" ++ pyReprSeq xs ++ "]"
  | .obj ms => "\x7b" ++ pyReprMembers ms ++ "\x7d"

/-- Comma-joined `repr` of list elements. -/
def pyReprSeq : List JSON → String
  | [] => ""
  | [x] => pyRepr x
  | x :: xs => pyRepr x ++ ", " ++ pyReprSeq xs

/-- Comma-joined `repr(k): repr(v)` of dict members. -/
def pyReprMembers : List (String × JSON) → String
  | [] => ""
  | [(k, v)] => pyRepr (.str k) ++ ": " ++ pyRepr v
  | (k, v) :: ms => pyRepr (.str k) ++ ": " ++ pyRepr v ++ ", " ++ pyReprMembers ms

end

/-- Conversion behaviour of the built-in scalar classes: `Scalar` is a
pass-through, `Int.converter = int`, `String.converter = ID.converter = str`,
`Boolean.converter = bool`. -/
inductive ScalarKind where
  | passthru
  | toInt
  | toStr
  | toBool
deriving DecidableEq, Repr

/-- Apply a scalar converter to a non-null JSON value, modelling
`cls.converter(json_data)` in `Scalar.__new__` (an exception becomes
`.error`). -/
def scalarConv : ScalarKind → JSON → Except String JSON
  | .passthru, j => .ok j
  | .toInt, j =>
      match j with
      | .num n => .ok (.num n)
      | .bool b => .ok (.num (if b then 1 else 0))
      | .str s =>
          match parsePyInt s with
          | some n => .ok (.num n)
          | none => .error "invalid literal for int with base 10"
      | _ => .error "int argument must be a string or a number"
  | .toStr, j => .ok (.str (pyStr j))
  | .toBool, j => .ok (.bool (pyTruthyJSON j))

/-- Type Descriptors: the decode-relevant content of a declared GraphQL type.
Containers carry their kind (`type`, `interface` or `input`), name and the
ordered field table; each field is `(name, graphql_name, type)` as fixed by
`Field._set_container`. `nonNull`/`listWrap` are the behaviours of the classes
generated by the factory functions `non_null` and `list_of`. -/
inductive GType where
  | scalar (name : String) (skind : ScalarKind)
  | enum (name : String) (choices : List String)
  | container (kind : String) (name : String) (fields : List (String × String × GType))
  | nonNull (base : GType)
  | listWrap (base : GType)

/-- Field Descriptor content: `(name, graphql_name, type)`. -/
abbrev Fld := String × String × GType

/-- Selection list: ordered `(field descriptor, optional alias)` pairs, as
read from `sel.__field__` and `sel.__alias__` in `ContainerType.__init__`. -/
abbrev Sels := List (Fld × Option String)

/-- Decoded native values: `None`, plain JSON-ish Python values (scalar and
enum results), Python lists (`list_of` results), and container instances.
A `vobj` holds `__selection_list__`, the readable attributes set on the
instance, `__fields_cache__` and the backing store `__json_data__`. -/
inductive Value where
  | vnull
  | vjson (j : JSON)
  | vlist (elems : List Value)
  | vobj (sel : Option Sels) (attrs : List (String × Value))
         (cache : List (String × Fld)) (backing : JSON)

/-- Errors surfaced by decoding, mirroring the exceptions of the source:
converter failures (`ValueError`/`TypeError` inside a scalar converter),
`Enum.__new__`s ValueError, the non-null wrapper's ValueError, Python
`TypeError`s from using a non-dict/list where one is expected, and the
wrapping ValueError of `ContainerType.__init__.set_field` carrying the
container class, attribute name, offending raw value and cause. -/
inductive Err where
  | convError (msg : String)
  | invalidEnum (tname : String) (value : JSON)
  | nullNotAllowed (wname : String)
  | typeErr (msg : String)
  | fieldFail (cls : String) (attr : String) (raw : JSON) (cause : Err)
deriving Repr

/-- Left-to-right effectful map over a list, modelling a Python list
comprehension whose body may raise: elements are produced in order and the
first exception aborts the whole comprehension. -/
def mapExcept {α β ε : Type} (f : α → Except ε β) : List α → Except ε (List β)
  | [] => .ok []
  | x :: xs =>
      match f x with
      | .error e => .error e
      | .ok y =>
          match mapExcept f xs with
          | .error e => .error e
          | .ok ys => .ok (y :: ys)

/-- Name of a type descriptor (`cls.__name__`); wrappers synthesize
`base + "!"` and `"[" + base + "]"` exactly as `non_null` and `list_of` do. -/
def gtypeName : GType → String
  | .scalar nm _ => nm
  | .enum nm _ => nm
  | .container _ nm _ => nm
  | .nonNull b => gtypeName b ++ "!"
  | .listWrap b => "[" ++ gtypeName b ++ "]"

mutual

/-- Decoding a JSON value with a type descriptor and no selection list:
`t(json_data)`. Scalar and enum `__new__` return `None` on null input; the
non-null wrapper rejects null and otherwise delegates to the base with no
selection (`t(json_data)`); the list wrapper maps the base over the iterable
(arrays elementwise; Python iteration over a string yields its characters and
over a dict its keys; numbers and booleans raise `TypeError`); containers run
`ContainerType.__init__` over the class field table. -/
def decodeN : GType → JSON → Except Err Value
  | .scalar _ sk, j =>
      match j with
      | .null => .ok .vnull
      | _ =>
          match scalarConv sk j with
          | .ok v => .ok (.vjson v)
          | .error m => .error (.convError m)
  | .enum nm cs, j =>
      match j with
      | .null => .ok .vnull
      | .str s => if s ∈ cs then .ok (.vjson (.str s)) else .error (.invalidEnum nm (.str s))
      | other => .error (.invalidEnum nm other)
  | .nonNull b, j =>
      match j with
      | .null => .error (.nullNotAllowed (gtypeName b ++ "!"))
      | _ => decodeN b j
  | .listWrap b, j =>
      match j with
      | .null => .ok .vnull
      | .arr xs => (mapExcept (fun x => decodeN b x) xs).map Value.vlist
      | .str s =>
          (mapExcept (fun x => decodeN b x)
            (s.toList.map (fun c => JSON.str c.toString))).map Value.vlist
      | .obj ms =>
          (mapExcept (fun x => decodeN b x)
            (ms.map (fun kv => JSON.str kv.1))).map Value.vlist
      | _ => .error (.typeErr "object is not iterable")
  | .container _ nm fields, j =>
      match j with
      | .null => .ok (.vobj none [] [] (.obj []))
      | .obj m =>
          match fieldsLoop nm fields m [] [] with
          | .error e => .error e
          | .ok (attrs, cache) => .ok (.vobj none attrs cache (.obj m))
      | _ => .error (.typeErr "argument of type is not a mapping")

/-- The `set_field` loop of `ContainerType.__init__` over the class field
table (`for field in self.__class__`): a field whose wire name is present in
the JSON object is decoded with its own type (`field.type(value)`, i.e. no
nested selection), stored as an attribute under the field name and recorded
in `__fields_cache__`; a failure is wrapped in a ValueError naming the class,
the attribute, the raw value and the cause, and aborts the whole
construction. Fields absent from the JSON are skipped. -/
def fieldsLoop (nm : String) :
    List Fld → List (String × JSON) → List (String × Value) →
    List (String × Fld) → Except Err (List (String × Value) × List (String × Fld))
  | [], _, attrs, cache => .ok (attrs, cache)
  | f :: rest, m, attrs, cache =>
      match lookupAssoc m f.2.1 with
      | none => fieldsLoop nm rest m attrs cache
      | some v =>
          match decodeN f.2.2 v with
          | .error e => .error (.fieldFail nm f.1 v e)
          | .ok d => fieldsLoop nm rest m (setAssoc attrs f.1 d) (setAssoc cache f.1 f)

end

/-- The `set_field` loop of `ContainerType.__init__` over a selection list:
each entry materializes its field under `alias or field.name`; each present
value is decoded with `field.type(value)` — no nested selection is passed. -/
def selLoop (nm : String) :
    Sels → List (String × JSON) → List (String × Value) →
    List (String × Fld) → Except Err (List (String × Value) × List (String × Fld))
  | [], _, attrs, cache => .ok (attrs, cache)
  | s :: rest, m, attrs, cache =>
      match lookupAssoc m s.1.2.1 with
      | none => selLoop nm rest m attrs cache
      | some v =>
          match decodeN s.1.2.2 v with
          | .error e => .error (.fieldFail nm (s.2.getD s.1.1) v e)
          | .ok d =>
              selLoop nm rest m (setAssoc attrs (s.2.getD s.1.1) d)
                (setAssoc cache (s.2.getD s.1.1) s.1)

/-- Decoding with a selection list supplied: `t(json_data, selection_list)`.
Scalars, enums and the non-null wrapper ignore the selection (the non-null
wrapper delegates `t(json_data)`, dropping it); the list wrapper passes the
selection through to every element; containers materialize exactly the
selected fields. -/
def decodeS : GType → JSON → Sels → Except Err Value
  | .scalar nm sk, j, _ => decodeN (.scalar nm sk) j
  | .enum nm cs, j, _ => decodeN (.enum nm cs) j
  | .nonNull b, j, _ =>
      match j with
      | .null => .error (.nullNotAllowed (gtypeName b ++ "!"))
      | _ => decodeN b j
  | .listWrap b, j, sels =>
      match j with
      | .null => .ok .vnull
      | .arr xs => (mapExcept (fun x => decodeS b x sels) xs).map Value.vlist
      | .str s =>
          (mapExcept (fun x => decodeS b x sels)
            (s.toList.map (fun c => JSON.str c.toString))).map Value.vlist
      | .obj ms =>
          (mapExcept (fun x => decodeS b x sels)
            (ms.map (fun kv => JSON.str kv.1))).map Value.vlist
      | _ => .error (.typeErr "object is not iterable")
  | .container _ nm fields, j, sels =>
      match j with
      | .null => .ok (.vobj (some sels) [] [] (.obj []))
      | .obj m =>
          match selLoop nm sels m [] [] with
          | .error e => .error e
          | .ok (attrs, cache) => .ok (.vobj (some sels) attrs cache (.obj m))
      | _ => .error (.typeErr "argument of type is not a mapping")

/-- Decoding entry point `t(json_data, selection_list)`: dispatch on whether a
selection list was supplied (`selection_list=None` is the default). -/
def decode (t : GType) (j : JSON) (sel : Option Sels) : Except Err Value :=
  match sel with
  | none => decodeN t j
  | some sels => decodeS t j sels

mutual

/-- Embedding of a plain Python value back into JSON, modelling
`Scalar.__to_json_value__` (and the enum version), which return the value
unchanged. A container instance is not JSON-serializable; its backing store
stands in for it here (unreachable for well-typed data). -/
def plainJson : Value → JSON
  | .vnull => .null
  | .vjson j => j
  | .vlist xs => .arr (plainJsonList xs)
  | .vobj _ _ _ backing => backing

/-- Elementwise `plainJson`. -/
def plainJsonList : List Value → List JSON
  | [] => []
  | x :: xs => plainJson x :: plainJsonList xs

end

mutual

/-- Dispatch of `__to_json_value__`: scalars and enums return the value
unchanged; the non-null wrapper does not override it and so delegates to its
base; the list wrapper maps the base over the value (`None` propagates;
iterating a raw string or dict or a container instance follows Python
iteration; numbers and booleans would raise `TypeError`, rendered as `null`
here and unreachable for well-typed values); containers serialize every class
field currently readable on the instance, keyed by wire name
(`ContainerTypeMeta.__to_json_value__`). -/
def toJsonValue : GType → Value → JSON
  | .scalar _ _, v => plainJson v
  | .enum _ _, v => plainJson v
  | .nonNull b, v => toJsonValue b v
  | .listWrap b, v =>
      match v with
      | .vnull => .null
      | .vjson .null => .null
      | .vlist xs => .arr (xs.map (fun x => toJsonValue b x))
      | .vjson (.arr js) => .arr (js.map (fun x => toJsonValue b (.vjson x)))
      | .vjson (.str s) =>
          .arr (s.toList.map (fun c => toJsonValue b (.vjson (.str c.toString))))
      | .vjson (.obj ms) =>
          .arr (ms.map (fun kv => toJsonValue b (.vjson (.str kv.1))))
      | .vobj _ _ cache _ =>
          .arr (cache.map (fun kv => toJsonValue b (.vjson (.str kv.1))))
      | _ => .null
  | .container _ _ fields, v =>
      match v with
      | .vnull => .null
      | .vjson .null => .null
      | .vobj _ attrs _ _ => .obj (toJsonFields fields attrs)
      | .vjson (.obj ms) =>
          .obj (toJsonFields fields (ms.map (fun kv => (kv.1, Value.vjson kv.2))))
      | _ => .null

/-- The field walk of `ContainerTypeMeta.__to_json_value__`: for every entry
of the class field table, in order, if the field name is readable on the
instance (`name in value`, i.e. the attribute was materialized), emit
`d[f.graphql_name] = f.type.__to_json_value__(value[name])`. -/
def toJsonFields : List Fld → List (String × Value) → List (String × JSON)
  | [], _ => []
  | f :: rest, attrs =>
      match lookupAssoc attrs f.1 with
      | some d => (f.2.1, toJsonValue f.2.2 d) :: toJsonFields rest attrs
      | none => toJsonFields rest attrs

end

/-- Write to the backing store: `self.__json_data__[graphql_name] = value`
(the backing store of a constructed instance is always a JSON object). -/
def objSet : JSON → String → JSON → JSON
  | .obj ms, k, v => .obj (setAssoc ms k v)
  | other, _, _ => other

/-- Attribute assignment `ContainerType.__setattr__` on a fully constructed
instance (`__json_data__` present): the attribute is always set; if the name
is in `__fields_cache__`, the field type converts the value back to JSON and
stores it in the backing store under the field wire name; otherwise the
backing store is untouched. -/
def containerSetattr (v : Value) (nm : String) (x : Value) : Value :=
  match v with
  | .vobj sel attrs cache backing =>
      match lookupAssoc cache nm with
      | none => .vobj sel (setAssoc attrs nm x) cache backing
      | some f =>
          .vobj sel (setAssoc attrs nm x) cache
            (objSet backing f.2.1 (toJsonValue f.2.2 x))
  | other => other

/-- Built-in scalar descriptors. -/
def IntT : GType := .scalar "Int" .toInt

/-- Built-in `String` scalar. -/
def StringT : GType := .scalar "String" .toStr

/-- Built-in `Boolean` scalar. -/
def BooleanT : GType := .scalar "Boolean" .toBool

/-- Built-in `ID` scalar (`converter = str`). -/
def IDT : GType := .scalar "ID" .toStr

/-- Registry view of a declared type, as used by `Schema.__iadd__` and
`__isub__`: its identity `tid` (Python object identity, `is` comparison),
`__name__`, `__kind__`, and a reference to the schema it was declared in
(`__schema__`, used by the wrapper factories for the cache). -/
structure TypeDesc where
  tid : Nat
  tname : String
  tkind : String
  schemaRef : Nat
deriving DecidableEq, Repr

/-- Registration state of a `Schema`: the ordered name table `__all` (name to
type identity) and the kind index `__kinds` (kind to name-to-type
submapping). The wrapper cache `__cache__` is modelled separately in `WrapSt`,
keyed by schema reference, because it is registry-local state shared by the
factory functions. -/
structure SchemaSt where
  all : List (String × Nat)
  kinds : List (String × List (String × Nat))
deriving DecidableEq, Repr

/-- Errors raised by registry mutation: the ValueError of `Schema.__iadd__`
and the KeyError of `Schema.__isub__`. -/
inductive RegErr where
  | duplicateValue (nm : String)
  | keyError (nm : String)
deriving DecidableEq, Repr

/-- Model of `self.__kinds.setdefault(typ.__kind__, ODict()).update({name: typ})`. -/
def kindsAdd (ks : List (String × List (String × Nat))) (kind nm : String)
    (tid : Nat) : List (String × List (String × Nat)) :=
  match lookupAssoc ks kind with
  | none => ks ++ [(kind, [(nm, tid)])]
  | some sub => setAssoc ks kind (setAssoc sub nm tid)

/-- Model of `Schema.__iadd__`: `setdefault` the name, raise ValueError if the
name resolves to a different type object (`t is not typ`), otherwise update
the kind index. Re-adding the identical type object is accepted. -/
def schemaIadd (s : SchemaSt) (t : TypeDesc) : Except RegErr SchemaSt :=
  match lookupAssoc s.all t.tname with
  | some existing =>
      if existing ≠ t.tid then .error (.duplicateValue t.tname)
      else .ok { s with kinds := kindsAdd s.kinds t.tkind t.tname t.tid }
  | none =>
      .ok { all := setAssoc s.all t.tname t.tid,
            kinds := kindsAdd s.kinds t.tkind t.tname t.tid }

/-- Model of `Schema.__isub__`: `del self.__all[name]` (KeyError when the name
is absent) then `del self.__kinds[kind][name]`. (When the second delete fails
CPython has already mutated `__all`; that partial state is unreachable under
the registry invariant and not modelled.) -/
def schemaIsub (s : SchemaSt) (t : TypeDesc) : Except RegErr SchemaSt :=
  match lookupAssoc s.all t.tname with
  | none => .error (.keyError t.tname)
  | some _ =>
      match lookupAssoc s.kinds t.tkind with
      | none => .error (.keyError t.tkind)
      | some sub =>
          match lookupAssoc sub t.tname with
          | none => .error (.keyError t.tname)
          | some _ =>
              .ok { all := removeAssoc s.all t.tname,
                    kinds := setAssoc s.kinds t.tkind (removeAssoc sub t.tname) }

/-- Model of `Schema.__init__(base_schema)`: snapshot-copy the name table and
kind index of the base; the wrapper cache starts empty (it is never copied),
which in this model means the new schema's reference is absent from `WrapSt`. -/
def schemaNew (base : SchemaSt) : SchemaSt :=
  { all := base.all, kinds := base.kinds }

/-- Shared mutable state of the wrapper factories: every schema's `__cache__`
(schema reference to a map from synthesized wrapper name to wrapper identity),
plus a freshness counter standing for the identity of the next dynamically
created wrapper class. -/
structure WrapSt where
  caches : List (Nat × List (String × Nat))
  fresh : Nat
deriving DecidableEq, Repr

/-- Cache consultation and fill common to `non_null` and `list_of`: look the
synthesized name up in `t.__schema__.__cache__`, returning the cached wrapper;
on a miss, create a fresh wrapper class and store it in that cache. -/
def getWrapper (t : TypeDesc) (wname : String) (st : WrapSt) : Nat × WrapSt :=
  let cache := (lookupAssoc st.caches t.schemaRef).getD []
  match lookupAssoc cache wname with
  | some w => (w, st)
  | none =>
      (st.fresh,
        { caches := setAssoc st.caches t.schemaRef (setAssoc cache wname st.fresh),
          fresh := st.fresh + 1 })

/-- Model of the factory `non_null(t)` restricted to its caching behaviour
(the decode behaviour of the created wrapper is `GType.nonNull`): wrapper name
`t.__name__ + "!"`, cached per `t.__schema__`. -/
def non_null (t : TypeDesc) (st : WrapSt) : Nat × WrapSt :=
  getWrapper t (t.tname ++ "!") st

/-- Model of the factory `list_of(t)` restricted to its caching behaviour
(the decode behaviour of the created wrapper is `GType.listWrap`): wrapper
name `"[" + t.__name__ + "]"`, cached per `t.__schema__`. -/
def list_of (t : TypeDesc) (st : WrapSt) : Nat × WrapSt :=
  getWrapper t ("[" ++ t.tname ++ "]") st

/-- A base class as seen by `ContainerTypeMeta.__populate_interfaces`: its
identity, its `__kind__` and its `__interfaces__` (as identities). -/
structure BaseC where
  bid : Nat
  kind : String
  interfaces : List Nat
deriving DecidableEq, Repr

/-- The inner loop of `__populate_interfaces` over one base's inherited
interfaces: `if i not in ifaces: ifaces.append(i)`. -/
def addInherited (acc : List Nat) : List Nat → List Nat
  | [] => acc
  | i :: rest => addInherited (if i ∈ acc then acc else acc ++ [i]) rest

/-- The outer loop of `__populate_interfaces` over the bases: a base of kind
`interface` is appended unconditionally, then its inherited interfaces are
appended if not already present. -/
def populateLoop (acc : List Nat) : List BaseC → List Nat
  | [] => acc
  | b :: rest =>
      populateLoop
        (addInherited (if b.kind = "interface" then acc ++ [b.bid] else acc) b.interfaces)
        rest

/-- Model of `ContainerTypeMeta.__populate_interfaces(bases)`, producing the
new container's `__interfaces__` list. -/
def populateInterfaces (bases : List BaseC) : List Nat :=
  populateLoop [] bases

/-- First-seen deduplicating append: each element of the stream is appended
to the accumulator only if not already present, so every element keeps its
first-seen position. -/
def dedupAppend (acc : List Nat) : List Nat → List Nat
  | [] => acc
  | i :: rest => dedupAppend (if i ∈ acc then acc else acc ++ [i]) rest

/-- Specification-side reading of the interface-collection step, following
the claim's words: gather, in base order, every base that is itself of kind
`interface` together with every interface already implemented by any base,
with duplicates removed so that each interface appears exactly once, at its
first-seen position. Compared against the source-side `populateInterfaces`. -/
def interfacesSpec (bases : List BaseC) : List Nat :=
  dedupAppend [] (bases.flatMap (fun b =>
    (if b.kind = "interface" then [b.bid] else []) ++ b.interfaces))

/-- Python truthiness of a decoded value, as tested by `assert` in
`Arg.__init__`: container instances define `__len__` as the number of
materialized attributes, so an instance with an empty fields cache is falsy. -/
def pyTruthyValue : Value → Bool
  | .vnull => false
  | .vjson j => pyTruthyJSON j
  | .vlist [] => false
  | .vlist (_ :: _) => true
  | .vobj _ _ [] _ => false
  | .vobj _ _ (_ :: _) _ => true

/-- The constructed content of an `Arg`: its type, optional explicit wire
name and stored default. -/
structure ArgDesc where
  atype : GType
  agname : Option String
  adefault : Option JSON

/-- Errors raised while constructing an `Arg`: a ValueError/TypeError raised
by decoding the default, or the AssertionError of `assert typ(default)` when
the decoded default is falsy. -/
inductive ArgErr where
  | decodeFail (e : Err)
  | assertionFailed

/-- Model of `Arg.__init__(typ, graphql_name, default)` (after
`BaseType.__ensure__` has resolved `typ` to a type descriptor): the default is
stored, and when not `None` it is checked by `assert typ(default)` — the
decode runs with no selection list, its exceptions propagate, and a falsy
decoded result raises AssertionError. -/
def argInit (typ : GType) (gname : Option String) (dflt : Option JSON) :
    Except ArgErr ArgDesc :=
  match dflt with
  | none => .ok ⟨typ, gname, none⟩
  | some d =>
      match decode typ d none with
      | .error e => .error (.decodeFail e)
      | .ok v =>
          if pyTruthyValue v then .ok ⟨typ, gname, some d⟩
          else .error .assertionFailed

/-- Success test on a decode result (Python: no exception was raised). -/
def exceptOk {ε α : Type} : Except ε α → Bool
  | .ok _ => true
  | .error _ => false

/-- Per-field success of `set_field` on a given JSON object: the field is
either absent from the object or its value decodes without an exception. -/
def fieldDecodeOk (m : List (String × JSON)) (g : Fld) : Bool :=
  match lookupAssoc m g.2.1 with
  | none => true
  | some w => exceptOk (decodeN g.2.2 w)

/-- Per-field roundtrip preservation on a given JSON object: the field is
absent, or its value decodes successfully and re-serializing the decoded
value through the field type returns the original value. -/
def fieldRoundtrips (m : List (String × JSON)) (g : Fld) : Bool :=
  match lookupAssoc m g.2.1 with
  | none => true
  | some w =>
      match decodeN g.2.2 w with
      | .error _ => false
      | .ok d => jeq (toJsonValue g.2.2 d) w

/-- The subset of a JSON object restricted to the fields present in it, keyed
by wire name, listed in field-table order (Python dict equality is
order-insensitive; the serializer emits keys in field-table order). -/
def restrictObj (fields : List Fld) (m : List (String × JSON)) : List (String × JSON) :=
  fields.filterMap (fun f => (lookupAssoc m f.2.1).map (fun v => (f.2.1, v)))

/-- Wire-name restriction of a JSON object to the class fields whose
attribute name is among the given selected names, in field-table order
(the order in which the serializer walks the class field table). -/
def restrictObjOn (snames : List String) (fields : List Fld)
    (m : List (String × JSON)) : List (String × JSON) :=
  fields.filterMap (fun f =>
    if f.1 ∈ snames then (lookupAssoc m f.2.1).map (fun v => (f.2.1, v)) else none)

/-- The attribute list built by a successful `set_field` loop over the field
table: one entry per present, successfully decoded field, keyed by field
name. -/
def decodedAttrs (m : List (String × JSON)) (fields : List Fld) :
    List (String × Value) :=
  fields.filterMap (fun f => (lookupAssoc m f.2.1).bind (fun v =>
    match decodeN f.2.2 v with
    | .ok d => some (f.1, d)
    | .error _ => none))

/-- The fields cache built by a successful `set_field` loop over the field
table: one entry per present, successfully decoded field. -/
def decodedCache (m : List (String × JSON)) (fields : List Fld) :
    List (String × Fld) :=
  fields.filterMap (fun f => (lookupAssoc m f.2.1).bind (fun v =>
    match decodeN f.2.2 v with
    | .ok _ => some (f.1, f)
    | .error _ => none))

theorem lookupAssoc_setAssoc_self {κ α : Type} [DecidableEq κ]
    (l : List (κ × α)) (k : κ) (v : α) :
    lookupAssoc (setAssoc l k v) k = some v := by
  induction l with
  | nil => simp [setAssoc, lookupAssoc]
  | cons p rest ih =>
      obtain ⟨k2, w⟩ := p
      by_cases h : k2 = k
      · simp [setAssoc, h, lookupAssoc]
      · simp [setAssoc, h, lookupAssoc, ih]

theorem lookupAssoc_setAssoc_ne {κ α : Type} [DecidableEq κ]
    (l : List (κ × α)) (k k2 : κ) (v : α) (hne : k ≠ k2) :
    lookupAssoc (setAssoc l k v) k2 = lookupAssoc l k2 := by
  induction l with
  | nil => simp [setAssoc, lookupAssoc, hne]
  | cons p rest ih =>
      obtain ⟨k3, w⟩ := p
      by_cases h : k3 = k
      · subst h
        simp [setAssoc, lookupAssoc, hne]
      · simp [setAssoc, h, lookupAssoc, ih]

theorem lookupAssoc_eq_none {κ α : Type} [DecidableEq κ]
    (l : List (κ × α)) (k : κ) (h : ∀ p ∈ l, p.1 ≠ k) :
    lookupAssoc l k = none := by
  induction l with
  | nil => rfl
  | cons p rest ih =>
      obtain ⟨k2, w⟩ := p
      have h1 : k2 ≠ k := h (k2, w) (List.mem_cons_self _ _)
      simp only [lookupAssoc, if_neg h1]
      exact ih (fun q hq => h q (List.mem_cons_of_mem _ hq))

theorem lookupAssoc_mem {κ α : Type} [DecidableEq κ]
    (l : List (κ × α)) (k : κ) (v : α) (h : lookupAssoc l k = some v) :
    (k, v) ∈ l := by
  induction l with
  | nil => simp [lookupAssoc] at h
  | cons p rest ih =>
      obtain ⟨k2, w⟩ := p
      by_cases h2 : k2 = k
      · subst h2
        simp [lookupAssoc] at h
        subst h
        exact List.mem_cons_self _ _
      · simp only [lookupAssoc, if_neg h2] at h
        exact List.mem_cons_of_mem _ (ih h)

theorem setAssoc_eq_append {κ α : Type} [DecidableEq κ]
    (l : List (κ × α)) (k : κ) (v : α) (h : ∀ p ∈ l, p.1 ≠ k) :
    setAssoc l k v = l ++ [(k, v)] := by
  induction l with
  | nil => rfl
  | cons p rest ih =>
      obtain ⟨k2, w⟩ := p
      have h1 : k2 ≠ k := h (k2, w) (List.mem_cons_self _ _)
      simp only [setAssoc, if_neg h1, List.cons_append, List.cons.injEq, true_and]
      exact ih (fun q hq => h q (List.mem_cons_of_mem _ hq))

theorem toJsonFields_nil_attrs (fs : List Fld) : toJsonFields fs [] = [] := by
  induction fs with
  | nil => rfl
  | cons f rest ih => simp [toJsonFields, lookupAssoc, ih]

/-- C10: decoding a null JSON value with a container type yields a live
container instance (not a null result) whose selection list is the one
supplied, whose materialized-field cache and attribute set are empty (so
nothing is readable and iteration yields nothing), and whose backing store is
a fresh empty JSON object; serializing it returns an empty object. -/
theorem C10_container_null_decode (kind nm : String) (fields : List Fld)
    (sel : Option Sels) :
    decode (.container kind nm fields) .null sel = .ok (.vobj sel [] [] (.obj [])) ∧
    (Value.vobj sel [] [] (.obj []) ≠ .vnull) ∧
    toJsonValue (.container kind nm fields) (.vobj sel [] [] (.obj [])) = .obj [] := by
  refine ⟨?_, ?_, ?_⟩
  · cases sel <;> rfl
  · intro h
    cases h
  · show JSON.obj (toJsonFields fields []) = .obj []
    rw [toJsonFields_nil_attrs]

/-- C4: for every type descriptor, the non-null wrapper rejects a null JSON
value with the NullNotAllowed ValueError naming the wrapper, and on any
non-null JSON value (whatever selection list the wrapper was called with) it
returns exactly the result of decoding the value with the base type directly
(the wrapper calls `t(json_data)`, dropping the selection list). -/
theorem C4_non_null_decode (t : GType) (sel : Option Sels) :
    decode (.nonNull t) .null sel = .error (.nullNotAllowed (gtypeName t ++ "!")) ∧
    ∀ j : JSON, j ≠ .null → decode (.nonNull t) j sel = decode t j none := by
  constructor
  · cases sel <;> rfl
  · intro j hj
    cases sel <;> cases j <;> first | exact absurd rfl hj | rfl

theorem C4_witness :
    (JSON.num 3 ≠ JSON.null) ∧
    decode (.nonNull IntT) (.num 3) none = decode IntT (.num 3) none :=
  ⟨by decide, (C4_non_null_decode IntT none).2 (.num 3) (by decide)⟩

/-- C6: on a fully constructed container instance, assigning to an attribute
that names a cached (materialized) field stores the field type's JSON
conversion of the value into the backing JSON object under the field's wire
name (and the attribute itself is updated), while assigning to a name not in
the fields cache updates the attribute but leaves the backing JSON object
exactly as it was. -/
theorem C6_setattr_sync (sel : Option Sels) (attrs : List (String × Value))
    (cache : List (String × Fld)) (m : List (String × JSON)) (nm : String) (x : Value) :
    (∀ f, lookupAssoc cache nm = some f →
      containerSetattr (.vobj sel attrs cache (.obj m)) nm x =
        .vobj sel (setAssoc attrs nm x) cache
          (.obj (setAssoc m f.2.1 (toJsonValue f.2.2 x))) ∧
      lookupAssoc (setAssoc attrs nm x) nm = some x) ∧
    (lookupAssoc cache nm = none →
      containerSetattr (.vobj sel attrs cache (.obj m)) nm x =
        .vobj sel (setAssoc attrs nm x) cache (.obj m) ∧
      lookupAssoc (setAssoc attrs nm x) nm = some x) := by
  constructor
  · intro f hf
    constructor
    · simp [containerSetattr, hf, objSet]
    · exact lookupAssoc_setAssoc_self attrs nm x
  · intro hf
    constructor
    · simp [containerSetattr, hf]
    · exact lookupAssoc_setAssoc_self attrs nm x

theorem C6_witness :
    containerSetattr
      (.vobj none [("id", .vjson (.str "42")), ("name", .vjson (.str "Ada"))]
        [("id", ("id", "id", IDT)), ("name", ("name", "name", StringT))]
        (.obj [("id", .str "42"), ("name", .str "Ada")]))
      "name" (.vjson (.str "Grace")) =
    .vobj none [("id", .vjson (.str "42")), ("name", .vjson (.str "Grace"))]
      [("id", ("id", "id", IDT)), ("name", ("name", "name", StringT))]
      (.obj [("id", .str "42"), ("name", .str "Grace")]) ∧
    containerSetattr
      (.vobj none [("id", .vjson (.str "42")), ("name", .vjson (.str "Ada"))]
        [("id", ("id", "id", IDT)), ("name", ("name", "name", StringT))]
        (.obj [("id", .str "42"), ("name", .str "Ada")]))
      "other" (.vjson (.num 7)) =
    .vobj none
      [("id", .vjson (.str "42")), ("name", .vjson (.str "Ada")), ("other", .vjson (.num 7))]
      [("id", ("id", "id", IDT)), ("name", ("name", "name", StringT))]
      (.obj [("id", .str "42"), ("name", .str "Ada")]) :=
  ⟨((C6_setattr_sync none
      [("id", .vjson (.str "42")), ("name", .vjson (.str "Ada"))]
      [("id", ("id", "id", IDT)), ("name", ("name", "name", StringT))]
      [("id", .str "42"), ("name", .str "Ada")] "name" (.vjson (.str "Grace"))).1
      ("name", "name", StringT) rfl).1,
   ((C6_setattr_sync none
      [("id", .vjson (.str "42")), ("name", .vjson (.str "Ada"))]
      [("id", ("id", "id", IDT)), ("name", ("name", "name", StringT))]
      [("id", .str "42"), ("name", .str "Ada")] "other" (.vjson (.num 7))).2 rfl).1⟩

/-- C3: calling `non_null` (or `list_of`) twice on the same type against the
same state returns the identical cached wrapper, while for a type of the same
name attached to a second, independently derived registry (whose wrapper
cache starts empty, since `Schema.__init__` never copies `__cache__`) the
wrapper obtained is a distinct object. The hypotheses say that the state is
well formed (every cached wrapper identity predates the freshness counter)
and that the second registry is new (no cache entry yet, reference distinct
from the first type's registry). -/
theorem C3_wrapper_cache_identity (t t2 : TypeDesc) (st : WrapSt)
    (hwf : ∀ p ∈ st.caches, ∀ q ∈ p.2, q.2 < st.fresh)
    (hfreshref : ∀ p ∈ st.caches, p.1 ≠ t2.schemaRef)
    (hne : t2.schemaRef ≠ t.schemaRef) :
    (non_null t ((non_null t st).2)).1 = (non_null t st).1 ∧
    (list_of t ((list_of t st).2)).1 = (list_of t st).1 ∧
    (non_null t2 ((non_null t st).2)).1 ≠ (non_null t st).1 := by
  have idem : ∀ wname : String, (getWrapper t wname ((getWrapper t wname st).2)).1 =
      (getWrapper t wname st).1 := by
    intro wname
    unfold getWrapper
    cases hc : lookupAssoc ((lookupAssoc st.caches t.schemaRef).getD []) wname with
    | some w => simp [hc]
    | none =>
        simp only [hc]
        rw [lookupAssoc_setAssoc_self]
        simp [lookupAssoc_setAssoc_self]
  refine ⟨idem _, idem _, ?_⟩
  have hnone : lookupAssoc st.caches t2.schemaRef = none :=
    lookupAssoc_eq_none _ _ hfreshref
  unfold non_null getWrapper
  cases hc : lookupAssoc ((lookupAssoc st.caches t.schemaRef).getD []) (t.tname ++ "!") with
  | some w =>
      have hmem := lookupAssoc_mem _ _ _ hc
      have hw : w < st.fresh := by
        cases hcache : lookupAssoc st.caches t.schemaRef with
        | none => rw [hcache] at hmem; simp at hmem
        | some c =>
            rw [hcache] at hmem
            exact hwf _ (lookupAssoc_mem _ _ _ hcache) _ hmem
      simp only [hc, hnone, Option.getD_none, lookupAssoc]
      omega
  | none =>
      simp only [hc]
      rw [lookupAssoc_setAssoc_ne _ _ _ _ (fun h => hne h.symm), hnone]
      simp only [Option.getD_none, lookupAssoc]
      omega

theorem C3_witness :
    ((∀ p ∈ (⟨[], 0⟩ : WrapSt).caches, ∀ q ∈ p.2, q.2 < (⟨[], 0⟩ : WrapSt).fresh) ∧
     (∀ p ∈ (⟨[], 0⟩ : WrapSt).caches, p.1 ≠ (1 : Nat)) ∧ (1 : Nat) ≠ 0) ∧
    ((non_null ⟨0, "T", "type", 0⟩ ((non_null ⟨0, "T", "type", 0⟩ ⟨[], 0⟩).2)).1 =
      (non_null ⟨0, "T", "type", 0⟩ ⟨[], 0⟩).1 ∧
     (list_of ⟨0, "T", "type", 0⟩ ((list_of ⟨0, "T", "type", 0⟩ ⟨[], 0⟩).2)).1 =
      (list_of ⟨0, "T", "type", 0⟩ ⟨[], 0⟩).1 ∧
     (non_null ⟨1, "T", "type", 1⟩ ((non_null ⟨0, "T", "type", 0⟩ ⟨[], 0⟩).2)).1 ≠
      (non_null ⟨0, "T", "type", 0⟩ ⟨[], 0⟩).1) :=
  ⟨⟨by simp, by simp, by decide⟩,
   C3_wrapper_cache_identity ⟨0, "T", "type", 0⟩ ⟨1, "T", "type", 1⟩ ⟨[], 0⟩
     (by simp) (by simp) (by decide)⟩

/-- C7 counterexample: registering a type descriptor whose name is already
present does not always fail — re-registering the very same descriptor (the
`setdefault` result `is` the argument) succeeds and leaves the name table
unchanged, so the claim as stated is false. -/
theorem C7_counterexample :
    lookupAssoc (SchemaSt.all ⟨[("T", 0)], [("type", [("T", 0)])]⟩) "T" = some 0 ∧
    schemaIadd ⟨[("T", 0)], [("type", [("T", 0)])]⟩ ⟨0, "T", "type", 0⟩ =
      .ok ⟨[("T", 0)], [("type", [("T", 0)])]⟩ := ⟨rfl, rfl⟩

/-- C7 (amended): registering a descriptor whose name is already bound to a
*different* descriptor fails with the ValueError of `Schema.__iadd__` (and
the registry is unchanged — the failing operation returns no new state, and
`setdefault` on a present key does not mutate); re-registering the identical
descriptor succeeds with the name table unchanged; unregistering a name that
is not present fails with KeyError. -/
theorem C7_registry_errors (s : SchemaSt) (t : TypeDesc) :
    (∀ tid2, lookupAssoc s.all t.tname = some tid2 → tid2 ≠ t.tid →
      schemaIadd s t = .error (.duplicateValue t.tname)) ∧
    (lookupAssoc s.all t.tname = some t.tid →
      ∃ s2, schemaIadd s t = .ok s2 ∧ s2.all = s.all) ∧
    (lookupAssoc s.all t.tname = none →
      schemaIsub s t = .error (.keyError t.tname)) := by
  refine ⟨?_, ?_, ?_⟩
  · intro tid2 hl hne
    simp [schemaIadd, hl, hne]
  · intro hl
    exact ⟨{ s with kinds := kindsAdd s.kinds t.tkind t.tname t.tid },
           by simp [schemaIadd, hl], rfl⟩
  · intro hl
    simp [schemaIsub, hl]

theorem C7_witness :
    schemaIadd ⟨[("T", 0)], [("type", [("T", 0)])]⟩ ⟨1, "T", "type", 0⟩ =
      .error (.duplicateValue "T") ∧
    schemaIsub ⟨[("T", 0)], [("type", [("T", 0)])]⟩ ⟨5, "U", "type", 0⟩ =
      .error (.keyError "U") :=
  ⟨(C7_registry_errors ⟨[("T", 0)], [("type", [("T", 0)])]⟩ ⟨1, "T", "type", 0⟩).1
      0 rfl (by decide),
   (C7_registry_errors ⟨[("T", 0)], [("type", [("T", 0)])]⟩ ⟨5, "U", "type", 0⟩).2.2 rfl⟩

/-- C9 counterexample: `Int` accepts the default `0` (decoding succeeds), yet
constructing the argument fails — `assert typ(default)` tests the truthiness
of the decoded default, so a valid falsy default raises AssertionError. The
claim's "succeeds if and only if the type accepts the default" is false. -/
theorem C9_counterexample :
    decode IntT (.num 0) none = .ok (.vjson (.num 0)) ∧
    argInit IntT none (some (.num 0)) = .error .assertionFailed := ⟨rfl, rfl⟩

/-- C9 (amended): constructing an argument with an absent default always
succeeds; with a present default it succeeds iff the argument's own type
decodes the default successfully *and* the decoded value is truthy — an
unacceptable default is rejected at construction time, but so is any
acceptable default whose decoded value is falsy (`0`, `false`, `""`, empty
list, empty instance). -/
theorem C9_arg_default_check (typ : GType) (g : Option String) (d : JSON) :
    argInit typ g none = .ok ⟨typ, g, none⟩ ∧
    ((∃ a, argInit typ g (some d) = .ok a) ↔
      (∃ v, decode typ d none = .ok v ∧ pyTruthyValue v = true)) := by
  refine ⟨rfl, ?_⟩
  cases h : decode typ d none with
  | error e => simp [argInit, h]
  | ok v =>
      by_cases ht : pyTruthyValue v
      · simp [argInit, h, ht]
      · simp [argInit, h, ht]

theorem C9_witness :
    ∃ a, argInit IntT none (some (.num 3)) = .ok a :=
  (C9_arg_default_check IntT none (.num 3)).2.mpr ⟨.vjson (.num 3), rfl, rfl⟩

theorem mapExcept_ok_forall2 {α β ε : Type} (f : α → Except ε β) :
    ∀ (xs : List α) (ys : List β), mapExcept f xs = .ok ys →
      List.Forall₂ (fun x y => f x = .ok y) xs ys := by
  intro xs
  induction xs with
  | nil =>
      intro ys h
      simp only [mapExcept, Except.ok.injEq] at h
      subst h
      exact List.Forall₂.nil
  | cons x rest ih =>
      intro ys h
      cases hfx : f x with
      | error e => simp [mapExcept, hfx] at h
      | ok y =>
          cases hrest : mapExcept f rest with
          | error e => simp [mapExcept, hfx, hrest] at h
          | ok zs =>
              simp only [mapExcept, hfx, hrest, Except.ok.injEq] at h
              subst h
              exact List.Forall₂.cons hfx (ih zs hrest)

/-- C5: for every type descriptor, the list wrapper decodes a null JSON value
to null (`None`, not an error), and decodes a JSON array to the sequence
whose i-th element is the decoding of the i-th input element with the base
type (the selection list is passed through to every element), preserving
order and length. -/
theorem C5_list_of_decode (t : GType) (sel : Option Sels) :
    decode (.listWrap t) .null sel = .ok .vnull ∧
    ∀ (vs : List JSON) (r : Value), decode (.listWrap t) (.arr vs) sel = .ok r →
      ∃ ws : List Value, r = .vlist ws ∧ ws.length = vs.length ∧
        List.Forall₂ (fun v w => decode t v sel = .ok w) vs ws := by
  constructor
  · cases sel <;> rfl
  · intro vs r h
    cases sel with
    | none =>
        simp only [decode, decodeN] at h
        cases hm : mapExcept (fun x => decodeN t x) vs with
        | error e => rw [hm] at h; simp [Except.map] at h
        | ok ws =>
            rw [hm] at h
            simp only [Except.map, Except.ok.injEq] at h
            subst h
            have h2 := mapExcept_ok_forall2 _ _ _ hm
            exact ⟨ws, rfl, h2.length_eq.symm, h2⟩
    | some sels =>
        simp only [decode, decodeS] at h
        cases hm : mapExcept (fun x => decodeS t x sels) vs with
        | error e => rw [hm] at h; simp [Except.map] at h
        | ok ws =>
            rw [hm] at h
            simp only [Except.map, Except.ok.injEq] at h
            subst h
            have h2 := mapExcept_ok_forall2 _ _ _ hm
            exact ⟨ws, rfl, h2.length_eq.symm, h2⟩

theorem C5_witness :
    ∃ ws : List Value,
      Value.vlist [Value.vjson (.num 1), Value.vjson (.num 2)] = .vlist ws ∧
      ws.length = [JSON.num 1, JSON.num 2].length ∧
      List.Forall₂ (fun v w => decode IntT v none = .ok w) [JSON.num 1, JSON.num 2] ws :=
  (C5_list_of_decode IntT none).2 [.num 1, .num 2]
    (.vlist [.vjson (.num 1), .vjson (.num 2)]) rfl

theorem mem_addInherited (i : Nat) : ∀ (xs acc : List Nat),
    i ∈ addInherited acc xs ↔ i ∈ acc ∨ i ∈ xs := by
  intro xs
  induction xs with
  | nil => intro acc; simp [addInherited]
  | cons j rest ih =>
      intro acc
      simp only [addInherited]
      by_cases hj : j ∈ acc
      · rw [if_pos hj, ih]
        constructor
        · rintro (h | h)
          · exact Or.inl h
          · exact Or.inr (List.mem_cons_of_mem _ h)
        · rintro (h | h)
          · exact Or.inl h
          · rcases List.mem_cons.mp h with rfl | h2
            · exact Or.inl hj
            · exact Or.inr h2
      · rw [if_neg hj, ih]
        simp only [List.mem_append, List.mem_singleton, List.mem_cons]
        tauto

theorem nodup_addInherited : ∀ (xs acc : List Nat),
    acc.Nodup → (addInherited acc xs).Nodup := by
  intro xs
  induction xs with
  | nil => intro acc h; exact h
  | cons j rest ih =>
      intro acc h
      simp only [addInherited]
      by_cases hj : j ∈ acc
      · rw [if_pos hj]; exact ih acc h
      · rw [if_neg hj]
        refine ih _ ?_
        simp [List.nodup_append, h, hj]

theorem mem_populateLoop (i : Nat) : ∀ (bs : List BaseC) (acc : List Nat),
    i ∈ populateLoop acc bs ↔
      i ∈ acc ∨ ∃ b ∈ bs, (b.kind = "interface" ∧ i = b.bid) ∨ i ∈ b.interfaces := by
  intro bs
  induction bs with
  | nil => intro acc; simp [populateLoop]
  | cons b rest ih =>
      intro acc
      simp only [populateLoop]
      rw [ih, mem_addInherited]
      simp only [List.mem_cons]
      by_cases hb : b.kind = "interface"
      · rw [if_pos hb]
        simp only [List.mem_append, List.mem_singleton, hb]
        constructor
        · rintro (((h | h) | h) | ⟨b2, hb2, h⟩)
          · exact Or.inl h
          · exact Or.inr ⟨b, Or.inl rfl, Or.inl ⟨hb, h⟩⟩
          · exact Or.inr ⟨b, Or.inl rfl, Or.inr h⟩
          · exact Or.inr ⟨b2, Or.inr hb2, h⟩
        · rintro (h | ⟨b2, (rfl | hb2), h⟩)
          · exact Or.inl (Or.inl (Or.inl h))
          · rcases h with ⟨_, h⟩ | h
            · exact Or.inl (Or.inl (Or.inr h))
            · exact Or.inl (Or.inr h)
          · exact Or.inr ⟨b2, hb2, h⟩
      · rw [if_neg hb]
        constructor
        · rintro ((h | h) | ⟨b2, hb2, h⟩)
          · exact Or.inl h
          · exact Or.inr ⟨b, Or.inl rfl, Or.inr h⟩
          · exact Or.inr ⟨b2, Or.inr hb2, h⟩
        · rintro (h | ⟨b2, (rfl | hb2), h⟩)
          · exact Or.inl (Or.inl h)
          · rcases h with ⟨hk, _⟩ | h
            · exact absurd hk hb
            · exact Or.inl (Or.inr h)
          · exact Or.inr ⟨b2, hb2, h⟩

theorem nodup_populateLoop : ∀ (bs : List BaseC) (acc : List Nat),
    acc.Nodup →
    (∀ b ∈ bs, b.kind = "interface" → b.bid ∉ acc) →
    (∀ b ∈ bs, b.kind = "interface" → ∀ b2 ∈ bs, b.bid ∉ b2.interfaces) →
    List.Pairwise (fun a b => a.kind = "interface" → b.kind = "interface" →
      a.bid ≠ b.bid) bs →
    (populateLoop acc bs).Nodup := by
  intro bs
  induction bs with
  | nil => intro acc hacc _ _ _; exact hacc
  | cons b rest ih =>
      intro acc hacc hfut hov hpw
      simp only [populateLoop]
      have hpwrest := (List.pairwise_cons.mp hpw).2
      have hpwhead := (List.pairwise_cons.mp hpw).1
      have hacc0 : (if b.kind = "interface" then acc ++ [b.bid] else acc).Nodup := by
        by_cases hb : b.kind = "interface"
        · rw [if_pos hb]
          simp [List.nodup_append, hacc, hfut b (List.mem_cons_self _ _) hb]
        · rw [if_neg hb]; exact hacc
      refine ih _ (nodup_addInherited _ _ hacc0) ?_ ?_ hpwrest
      · intro b2 hb2 hk2
        rw [mem_addInherited]
        rintro (h | h)
        · by_cases hb : b.kind = "interface"
          · rw [if_pos hb] at h
            rcases List.mem_append.mp h with h2 | h2
            · exact hfut b2 (List.mem_cons_of_mem _ hb2) hk2 h2
            · exact hpwhead b2 hb2 hb hk2 (List.mem_singleton.mp h2).symm
          · rw [if_neg hb] at h
            exact hfut b2 (List.mem_cons_of_mem _ hb2) hk2 h
        · exact hov b2 (List.mem_cons_of_mem _ hb2) hk2 b (List.mem_cons_self _ _) h
      · intro b2 hb2 hk2 b3 hb3
        exact hov b2 (List.mem_cons_of_mem _ hb2) hk2 b3 (List.mem_cons_of_mem _ hb3)

theorem dedupAppend_eq_addInherited :
    ∀ (xs acc : List Nat), dedupAppend acc xs = addInherited acc xs
  | [], _ => rfl
  | _ :: rest, acc => by
      simp only [dedupAppend, addInherited]
      exact dedupAppend_eq_addInherited rest _

theorem dedupAppend_append : ∀ (xs ys acc : List Nat),
    dedupAppend acc (xs ++ ys) = dedupAppend (dedupAppend acc xs) ys
  | [], _, _ => rfl
  | _ :: rest, ys, acc => by
      simp only [List.cons_append, dedupAppend]
      exact dedupAppend_append rest ys _

theorem addInherited_exists_append :
    ∀ (xs acc : List Nat), ∃ extra, addInherited acc xs = acc ++ extra
  | [], acc => ⟨[], by simp [addInherited]⟩
  | j :: rest, acc => by
      simp only [addInherited]
      by_cases hj : j ∈ acc
      · rw [if_pos hj]
        exact addInherited_exists_append rest acc
      · rw [if_neg hj]
        rcases addInherited_exists_append rest (acc ++ [j]) with ⟨extra, he⟩
        exact ⟨j :: extra, by rw [he]; simp⟩

theorem directBases_sublist : ∀ (bs : List BaseC) (acc : List Nat),
    (acc ++ (bs.filter (fun b => b.kind == "interface")).map BaseC.bid).Sublist
      (populateLoop acc bs)
  | [], acc => by simp [populateLoop]
  | b :: rest, acc => by
      simp only [populateLoop]
      by_cases hb : b.kind = "interface"
      · rw [if_pos hb]
        have hfil : (b :: rest).filter (fun b => b.kind == "interface") =
            b :: rest.filter (fun b => b.kind == "interface") := by
          simp [List.filter_cons, hb]
        rw [hfil]
        rcases addInherited_exists_append b.interfaces (acc ++ [b.bid]) with ⟨extra, he⟩
        refine List.Sublist.trans ?_
          (directBases_sublist rest (addInherited (acc ++ [b.bid]) b.interfaces))
        rw [he]
        simp only [List.map_cons, List.append_assoc, List.singleton_append]
        exact List.Sublist.append_left
          ((List.sublist_append_right extra _).cons₂ b.bid) acc
      · rw [if_neg hb]
        have hfil : (b :: rest).filter (fun b => b.kind == "interface") =
            rest.filter (fun b => b.kind == "interface") := by
          simp [List.filter_cons, hb]
        rw [hfil]
        rcases addInherited_exists_append b.interfaces acc with ⟨extra, he⟩
        refine List.Sublist.trans ?_
          (directBases_sublist rest (addInherited acc b.interfaces))
        rw [he, List.append_assoc]
        exact List.Sublist.append_left (List.sublist_append_right _ _) _

theorem populateLoop_eq_spec : ∀ (bs : List BaseC) (acc : List Nat),
    (∀ b ∈ bs, b.kind = "interface" → b.bid ∉ acc) →
    (∀ b ∈ bs, b.kind = "interface" → ∀ b2 ∈ bs, b.bid ∉ b2.interfaces) →
    List.Pairwise (fun a b => a.kind = "interface" → b.kind = "interface" →
      a.bid ≠ b.bid) bs →
    populateLoop acc bs =
      dedupAppend acc (bs.flatMap (fun b =>
        (if b.kind = "interface" then [b.bid] else []) ++ b.interfaces)) := by
  intro bs
  induction bs with
  | nil => intro acc _ _ _; rfl
  | cons b rest ih =>
      intro acc hfut hov hpw
      have hpwrest := (List.pairwise_cons.mp hpw).2
      have hpwhead := (List.pairwise_cons.mp hpw).1
      have hbind : (b :: rest).flatMap (fun b =>
          (if b.kind = "interface" then [b.bid] else []) ++ b.interfaces) =
          ((if b.kind = "interface" then [b.bid] else []) ++ b.interfaces) ++
            rest.flatMap (fun b =>
              (if b.kind = "interface" then [b.bid] else []) ++ b.interfaces) := rfl
      rw [hbind, dedupAppend_append]
      have hacc : dedupAppend acc
          ((if b.kind = "interface" then [b.bid] else []) ++ b.interfaces) =
          addInherited (if b.kind = "interface" then acc ++ [b.bid] else acc)
            b.interfaces := by
        by_cases hb : b.kind = "interface"
        · rw [if_pos hb, if_pos hb]
          simp only [List.singleton_append, dedupAppend,
            if_neg (hfut b (List.mem_cons_self _ _) hb)]
          exact dedupAppend_eq_addInherited _ _
        · rw [if_neg hb, if_neg hb]
          simp only [List.nil_append]
          exact dedupAppend_eq_addInherited _ _
      rw [hacc]
      simp only [populateLoop]
      refine ih _ ?_
        (fun b2 hb2 hk2 b3 hb3 =>
          hov b2 (List.mem_cons_of_mem _ hb2) hk2 b3 (List.mem_cons_of_mem _ hb3))
        hpwrest
      intro b2 hb2 hk2
      rw [mem_addInherited]
      rintro (h | h)
      · by_cases hb : b.kind = "interface"
        · rw [if_pos hb] at h
          rcases List.mem_append.mp h with h2 | h2
          · exact hfut b2 (List.mem_cons_of_mem _ hb2) hk2 h2
          · exact hpwhead b2 hb2 hb hk2 (List.mem_singleton.mp h2).symm
        · rw [if_neg hb] at h
          exact hfut b2 (List.mem_cons_of_mem _ hb2) hk2 h
      · exact hov b2 (List.mem_cons_of_mem _ hb2) hk2 b (List.mem_cons_self _ _) h

/-- C8 counterexample: a container declared with bases `(A, I)` where `A` is
an object type implementing interface `I` (identity 0) and `I` itself is also
a direct base — the interface list comes out as `[0, 0]`: the direct
interface base is appended unconditionally, so `I` appears twice, refuting
"each interface appears exactly once". -/
theorem C8_counterexample :
    populateInterfaces [⟨1, "type", [0]⟩, ⟨0, "interface", []⟩] = [0, 0] ∧
    ¬ (populateInterfaces [⟨1, "type", [0]⟩, ⟨0, "interface", []⟩]).Nodup := by
  decide

/-- C8 (amended): the implemented-interfaces list equals the specification
gather `interfacesSpec` — walk the bases in order, taking every base of kind
interface and every interface already implemented by any base, first-seen
deduplicated — provided that no two direct interface bases share an identity
and that no direct interface base is also implemented by any base (without
that proviso a direct interface base is appended unconditionally and can
appear twice, see the counterexample); under the proviso the list is
duplicate-free, and the direct interface bases appear in the result in
base-list order (as a sublist). -/
theorem C8_interface_collection (bases : List BaseC)
    (hpw : List.Pairwise (fun a b => a.kind = "interface" → b.kind = "interface" →
      a.bid ≠ b.bid) bases)
    (hov : ∀ b ∈ bases, b.kind = "interface" → ∀ b2 ∈ bases, b.bid ∉ b2.interfaces) :
    populateInterfaces bases = interfacesSpec bases ∧
    (populateInterfaces bases).Nodup ∧
    ((bases.filter (fun b => b.kind == "interface")).map BaseC.bid).Sublist
      (populateInterfaces bases) := by
  refine ⟨?_, nodup_populateLoop bases [] List.nodup_nil (by simp) hov hpw, ?_⟩
  · exact populateLoop_eq_spec bases [] (by simp) hov hpw
  · simpa using directBases_sublist bases []

theorem C8_witness :
    populateInterfaces [⟨0, "interface", []⟩, ⟨1, "type", [5]⟩] =
      interfacesSpec [⟨0, "interface", []⟩, ⟨1, "type", [5]⟩] ∧
    (populateInterfaces [⟨0, "interface", []⟩, ⟨1, "type", [5]⟩]).Nodup ∧
    (([⟨0, "interface", []⟩, ⟨1, "type", [5]⟩].filter
        (fun b => b.kind == "interface")).map BaseC.bid).Sublist
      (populateInterfaces [⟨0, "interface", []⟩, ⟨1, "type", [5]⟩]) :=
  C8_interface_collection [⟨0, "interface", []⟩, ⟨1, "type", [5]⟩]
    (by simp) (by simp)

theorem fieldsLoop_first_error (nm : String) (f : Fld) (m : List (String × JSON))
    (v : JSON) (e : Err) :
    ∀ (pre post : List Fld) (attrs : List (String × Value))
      (cache : List (String × Fld)),
      (∀ g ∈ pre, fieldDecodeOk m g = true) →
      lookupAssoc m f.2.1 = some v →
      decodeN f.2.2 v = .error e →
      fieldsLoop nm (pre ++ f :: post) m attrs cache = .error (.fieldFail nm f.1 v e) := by
  intro pre
  induction pre with
  | nil =>
      intro post attrs cache _ hlook herr
      simp only [List.nil_append, fieldsLoop, hlook, herr]
  | cons g rest ih =>
      intro post attrs cache hpre hlook herr
      have hg := hpre g (List.mem_cons_self _ _)
      simp only [List.cons_append, fieldsLoop]
      cases hlg : lookupAssoc m g.2.1 with
      | none =>
          exact ih post attrs cache
            (fun q hq => hpre q (List.mem_cons_of_mem _ hq)) hlook herr
      | some w =>
          simp only [fieldDecodeOk, hlg] at hg
          cases hdg : decodeN g.2.2 w with
          | error e2 => rw [hdg] at hg; simp [exceptOk] at hg
          | ok d =>
              simp only [hdg]
              exact ih post _ _
                (fun q hq => hpre q (List.mem_cons_of_mem _ hq)) hlook herr

/-- C2 (amended): when the value of one present field fails to decode, the
failure is wrapped into a value error carrying the container type name, the
attribute name, the offending raw value and the underlying cause — but it
aborts the whole container construction: the constructor raises, no instance
is produced, and sibling fields (before or after the failing one) are not
materialized. Only fields *absent* from the JSON object are skipped without
affecting their siblings. The statement places the failing field at an
arbitrary position after the fields that decode fine. -/
theorem C2_field_failure_wrapped (kind nm : String) (pre post : List Fld) (f : Fld)
    (m : List (String × JSON)) (v : JSON) (e : Err)
    (hpre : ∀ g ∈ pre, fieldDecodeOk m g = true)
    (hlook : lookupAssoc m f.2.1 = some v)
    (herr : decodeN f.2.2 v = .error e) :
    decode (.container kind nm (pre ++ f :: post)) (.obj m) none =
      .error (.fieldFail nm f.1 v e) := by
  simp only [decode, decodeN]
  rw [fieldsLoop_first_error nm f m v e pre post [] [] hpre hlook herr]

theorem C2_witness :
    decode (.container "type" "Rec" [("x", "x", IntT), ("a", "a", IntT), ("b", "b", IntT)])
      (.obj [("x", .num 7), ("a", .obj []), ("b", .num 1)]) none =
      .error (.fieldFail "Rec" "a" (.obj [])
        (.convError "int argument must be a string or a number")) :=
  C2_field_failure_wrapped "type" "Rec" [("x", "x", IntT)] [("b", "b", IntT)]
    ("a", "a", IntT) [("x", .num 7), ("a", .obj []), ("b", .num 1)] (.obj [])
    (.convError "int argument must be a string or a number")
    (by decide) rfl rfl

/-- C2 counterexample: in a container with fields `a` and `b`, both present in
the JSON object, a decode failure on `a` makes the whole decode raise — it
does not yield an instance with the sibling `b` materialized, refuting
"the decoding of every other (sibling) field of the same object is
unaffected". -/
theorem C2_counterexample :
    decode (.container "type" "Pair" [("a", "a", IntT), ("b", "b", IntT)])
      (.obj [("a", .obj []), ("b", .num 1)]) none =
      .error (.fieldFail "Pair" "a" (.obj [])
        (.convError "int argument must be a string or a number")) ∧
    ∀ w, decode (.container "type" "Pair" [("a", "a", IntT), ("b", "b", IntT)])
      (.obj [("a", .obj []), ("b", .num 1)]) none ≠ .ok w := by
  refine ⟨rfl, ?_⟩
  intro w h
  rw [show decode (.container "type" "Pair" [("a", "a", IntT), ("b", "b", IntT)])
      (.obj [("a", .obj []), ("b", .num 1)]) none =
      .error (.fieldFail "Pair" "a" (.obj [])
        (.convError "int argument must be a string or a number")) from rfl] at h
  cases h

theorem fieldRoundtrips_ok (m : List (String × JSON)) (f : Fld)
    (h : fieldRoundtrips m f = true) : fieldDecodeOk m f = true := by
  unfold fieldRoundtrips at h
  unfold fieldDecodeOk
  cases hl : lookupAssoc m f.2.1 with
  | none => simp [hl]
  | some v =>
      simp only [hl] at h ⊢
      cases hd : decodeN f.2.2 v with
      | error e => rw [hd] at h; exact absurd h (by simp)
      | ok d => simp [exceptOk]

theorem fieldsLoop_success (nm : String) (m : List (String × JSON)) :
    ∀ (fields : List Fld) (attrs : List (String × Value)) (cache : List (String × Fld)),
      (∀ f ∈ fields, fieldDecodeOk m f = true) →
      (∀ f ∈ fields, ∀ p ∈ attrs, p.1 ≠ f.1) →
      (∀ f ∈ fields, ∀ p ∈ cache, p.1 ≠ f.1) →
      (fields.map (fun f => f.1)).Nodup →
      fieldsLoop nm fields m attrs cache =
        .ok (attrs ++ decodedAttrs m fields, cache ++ decodedCache m fields) := by
  intro fields
  induction fields with
  | nil =>
      intro attrs cache _ _ _ _
      simp [fieldsLoop, decodedAttrs, decodedCache]
  | cons f rest ih =>
      intro attrs cache hok hda hdc hnd
      have hndr : (rest.map (fun f => f.1)).Nodup := (List.nodup_cons.mp hnd).2
      have hfr : f.1 ∉ rest.map (fun f => f.1) := (List.nodup_cons.mp hnd).1
      simp only [fieldsLoop]
      cases hlf : lookupAssoc m f.2.1 with
      | none =>
          rw [ih attrs cache
            (fun g hg => hok g (List.mem_cons_of_mem _ hg))
            (fun g hg => hda g (List.mem_cons_of_mem _ hg))
            (fun g hg => hdc g (List.mem_cons_of_mem _ hg)) hndr]
          simp [decodedAttrs, decodedCache, List.filterMap_cons, hlf]
      | some v =>
          have hfo := hok f (List.mem_cons_self _ _)
          simp only [fieldDecodeOk, hlf] at hfo
          cases hdf : decodeN f.2.2 v with
          | error e => rw [hdf] at hfo; simp [exceptOk] at hfo
          | ok d =>
              simp only [hdf]
              rw [setAssoc_eq_append attrs f.1 d
                  (fun p hp => hda f (List.mem_cons_self _ _) p hp),
                setAssoc_eq_append cache f.1 f
                  (fun p hp => hdc f (List.mem_cons_self _ _) p hp)]
              rw [ih (attrs ++ [(f.1, d)]) (cache ++ [(f.1, f)])
                (fun g hg => hok g (List.mem_cons_of_mem _ hg))
                (fun g hg p hp => by
                  rcases List.mem_append.mp hp with h2 | h2
                  · exact hda g (List.mem_cons_of_mem _ hg) p h2
                  · rw [List.mem_singleton.mp h2]
                    intro hpe
                    exact hfr (hpe ▸ List.mem_map_of_mem (fun f => f.1) hg))
                (fun g hg p hp => by
                  rcases List.mem_append.mp hp with h2 | h2
                  · exact hdc g (List.mem_cons_of_mem _ hg) p h2
                  · rw [List.mem_singleton.mp h2]
                    intro hpe
                    exact hfr (hpe ▸ List.mem_map_of_mem (fun f => f.1) hg))
                hndr]
              simp only [decodedAttrs, decodedCache, List.filterMap_cons, hlf,
                Option.some_bind, hdf, List.append_assoc, List.singleton_append]

theorem decodedAttrs_keys (m : List (String × JSON)) (fields : List Fld) :
    ∀ p ∈ decodedAttrs m fields, p.1 ∈ fields.map (fun f => f.1) := by
  intro p hp
  rcases List.mem_filterMap.mp hp with ⟨f, hf, hgf⟩
  cases hl : lookupAssoc m f.2.1 with
  | none => rw [hl] at hgf; simp at hgf
  | some v =>
      rw [hl] at hgf
      simp only [Option.some_bind] at hgf
      cases hd : decodeN f.2.2 v with
      | error e => rw [hd] at hgf; simp at hgf
      | ok d =>
          rw [hd] at hgf
          simp only [Option.some.injEq] at hgf
          rw [← hgf]
          exact List.mem_map_of_mem (fun f => f.1) hf

theorem decodedAttrs_lookup (m : List (String × JSON)) :
    ∀ (fields : List Fld), (fields.map (fun f => f.1)).Nodup →
      (∀ f ∈ fields, fieldRoundtrips m f = true) →
      ∀ f ∈ fields,
        (∀ v, lookupAssoc m f.2.1 = some v →
          ∃ d, lookupAssoc (decodedAttrs m fields) f.1 = some d ∧
            decodeN f.2.2 v = .ok d ∧ toJsonValue f.2.2 d = v) ∧
        (lookupAssoc m f.2.1 = none →
          lookupAssoc (decodedAttrs m fields) f.1 = none) := by
  intro fields
  induction fields with
  | nil => intro _ _ f hf; exact absurd hf (List.not_mem_nil f)
  | cons g rest ih =>
      intro hnd hrt f hf
      have hndr : (rest.map (fun f => f.1)).Nodup := (List.nodup_cons.mp hnd).2
      have hgr : g.1 ∉ rest.map (fun f => f.1) := (List.nodup_cons.mp hnd).1
      rcases List.mem_cons.mp hf with rfl | hfr
      · -- f is the head
        have hg := hrt f (List.mem_cons_self _ _)
        constructor
        · intro v hl
          simp only [fieldRoundtrips, hl] at hg
          cases hd : decodeN f.2.2 v with
          | error e => rw [hd] at hg; exact absurd hg (by simp)
          | ok d =>
              rw [hd] at hg
              refine ⟨d, ?_, rfl, (jeq_iff _ _).mp hg⟩
              simp only [decodedAttrs, List.filterMap_cons, hl, Option.some_bind, hd]
              simp [lookupAssoc]
        · intro hl
          simp only [decodedAttrs, List.filterMap_cons, hl]
          have : ∀ p ∈ decodedAttrs m rest, p.1 ≠ f.1 := by
            intro p hp hpe
            exact hgr (hpe ▸ decodedAttrs_keys m rest p hp)
          simpa [decodedAttrs] using lookupAssoc_eq_none _ _ this
      · -- f is in the tail
        have hne : f.1 ≠ g.1 := by
          intro h
          exact hgr (h ▸ List.mem_map_of_mem (fun f => f.1) hfr)
        have htail := ih hndr (fun q hq => hrt q (List.mem_cons_of_mem _ hq)) f hfr
        have hskip : lookupAssoc (decodedAttrs m (g :: rest)) f.1 =
            lookupAssoc (decodedAttrs m rest) f.1 := by
          simp only [decodedAttrs, List.filterMap_cons]
          cases hl : lookupAssoc m g.2.1 with
          | none => simp
          | some v =>
              simp only [Option.some_bind]
              cases hd : decodeN g.2.2 v with
              | error e => simp
              | ok d => simp [lookupAssoc, Ne.symm hne]
        constructor
        · intro v hl
          rcases htail.1 v hl with ⟨d, hd1, hd2, hd3⟩
          exact ⟨d, by rw [hskip]; exact hd1, hd2, hd3⟩
        · intro hl
          rw [hskip]
          exact htail.2 hl

theorem toJsonFields_matching (m : List (String × JSON)) :
    ∀ (fs : List Fld) (attrs : List (String × Value)),
      (∀ f ∈ fs,
        (∀ v, lookupAssoc m f.2.1 = some v →
          ∃ d, lookupAssoc attrs f.1 = some d ∧ toJsonValue f.2.2 d = v) ∧
        (lookupAssoc m f.2.1 = none → lookupAssoc attrs f.1 = none)) →
      toJsonFields fs attrs = restrictObj fs m := by
  intro fs
  induction fs with
  | nil => intro attrs _; rfl
  | cons f rest ih =>
      intro attrs h
      have hf := h f (List.mem_cons_self _ _)
      have hrest := ih attrs (fun q hq => h q (List.mem_cons_of_mem _ hq))
      simp only [toJsonFields, restrictObj, List.filterMap_cons]
      cases hl : lookupAssoc m f.2.1 with
      | none =>
          rw [hf.2 hl]
          simpa [restrictObj] using hrest
      | some v =>
          rcases hf.1 v hl with ⟨d, had, hjs⟩
          simp only [had, Option.map_some', hjs, List.cons.injEq, true_and]
          simpa [restrictObj] using hrest

theorem nodup_names_inj : ∀ (fields : List Fld),
    (fields.map (fun f => f.1)).Nodup →
    ∀ a ∈ fields, ∀ b ∈ fields, a.1 = b.1 → a = b := by
  intro fields
  induction fields with
  | nil => intro _ a ha; exact absurd ha (List.not_mem_nil a)
  | cons g rest ih =>
      intro hnd a ha b hb he
      have hgr : g.1 ∉ rest.map (fun f => f.1) := (List.nodup_cons.mp hnd).1
      rcases List.mem_cons.mp ha with rfl | ha2
      · rcases List.mem_cons.mp hb with rfl | hb2
        · rfl
        · exact absurd (by rw [he]; exact List.mem_map_of_mem (fun f => f.1) hb2) hgr
      · rcases List.mem_cons.mp hb with rfl | hb2
        · exact absurd (by rw [← he]; exact List.mem_map_of_mem (fun f => f.1) ha2) hgr
        · exact ih (List.nodup_cons.mp hnd).2 a ha2 b hb2 he

theorem selLoop_eq_fieldsLoop (nm : String) (m : List (String × JSON)) :
    ∀ (sels : Sels) (attrs : List (String × Value)) (cache : List (String × Fld)),
      (∀ s ∈ sels, s.2 = none) →
      selLoop nm sels m attrs cache = fieldsLoop nm (sels.map Prod.fst) m attrs cache := by
  intro sels
  induction sels with
  | nil => intro attrs cache _; rfl
  | cons s rest ih =>
      intro attrs cache hal
      have hs : s.2 = none := hal s (List.mem_cons_self _ _)
      cases hl : lookupAssoc m s.1.2.1 with
      | none =>
          simp only [selLoop, List.map_cons, fieldsLoop, hs, Option.getD_none, hl]
          exact ih attrs cache (fun q hq => hal q (List.mem_cons_of_mem _ hq))
      | some v =>
          simp only [selLoop, List.map_cons, fieldsLoop, hs, Option.getD_none, hl]
          cases hd : decodeN s.1.2.2 v with
          | error e => simp only [hd]
          | ok d =>
              simp only [hd]
              exact ih _ _ (fun q hq => hal q (List.mem_cons_of_mem _ hq))

theorem toJsonFields_matching_on (m : List (String × JSON)) (snames : List String) :
    ∀ (fs : List Fld) (attrs : List (String × Value)),
      (∀ f ∈ fs,
        (f.1 ∈ snames →
          (∀ v, lookupAssoc m f.2.1 = some v →
            ∃ d, lookupAssoc attrs f.1 = some d ∧ toJsonValue f.2.2 d = v) ∧
          (lookupAssoc m f.2.1 = none → lookupAssoc attrs f.1 = none)) ∧
        (f.1 ∉ snames → lookupAssoc attrs f.1 = none)) →
      toJsonFields fs attrs = restrictObjOn snames fs m := by
  intro fs
  induction fs with
  | nil => intro attrs _; rfl
  | cons f rest ih =>
      intro attrs h
      have hf := h f (List.mem_cons_self _ _)
      have hrest := ih attrs (fun q hq => h q (List.mem_cons_of_mem _ hq))
      simp only [toJsonFields, restrictObjOn, List.filterMap_cons]
      by_cases hin : f.1 ∈ snames
      · rw [if_pos hin]
        cases hl : lookupAssoc m f.2.1 with
        | none =>
            rw [(hf.1 hin).2 hl]
            simpa [restrictObjOn] using hrest
        | some v =>
            rcases (hf.1 hin).1 v hl with ⟨d, had, hjs⟩
            simp only [had, Option.map_some', hjs, List.cons.injEq, true_and]
            simpa [restrictObjOn] using hrest
      · rw [if_neg hin, hf.2 hin]
        simpa [restrictObjOn] using hrest

/-- C1 (amended): for a container type with distinct field names, decoding a
JSON object — without a selection list, or with an alias-free selection list
of (distinctly named) class fields — succeeds whenever every materialized
field's value decodes, and serializing the instance back via `toJSON` yields
exactly the subset of the original object restricted to the fields actually
materialized, keyed by wire name (in field-table order; Python dict equality
is order-insensitive), provided each materialized field's value is preserved
by its field type's decode-then-serialize roundtrip. That proviso is forced
by the counterexample: in general `toJSON` re-encodes each decoded value
through its field type, e.g. an `Int` field decoded from the string `"5"`
re-serializes as the number 5. -/
theorem C1_roundtrip (kind nm : String) (fields : List Fld) (m : List (String × JSON))
    (hnd : (fields.map (fun f => f.1)).Nodup) :
    ((∀ f ∈ fields, fieldRoundtrips m f = true) →
      decode (.container kind nm fields) (.obj m) none =
        .ok (.vobj none (decodedAttrs m fields) (decodedCache m fields) (.obj m)) ∧
      toJsonValue (.container kind nm fields)
        (.vobj none (decodedAttrs m fields) (decodedCache m fields) (.obj m)) =
        .obj (restrictObj fields m)) ∧
    (∀ sels : Sels,
      (∀ s ∈ sels, s.2 = none) →
      (∀ s ∈ sels, s.1 ∈ fields) →
      (sels.map (fun s => s.1.1)).Nodup →
      (∀ s ∈ sels, fieldRoundtrips m s.1 = true) →
      decode (.container kind nm fields) (.obj m) (some sels) =
        .ok (.vobj (some sels) (decodedAttrs m (sels.map Prod.fst))
          (decodedCache m (sels.map Prod.fst)) (.obj m)) ∧
      toJsonValue (.container kind nm fields)
        (.vobj (some sels) (decodedAttrs m (sels.map Prod.fst))
          (decodedCache m (sels.map Prod.fst)) (.obj m)) =
        .obj (restrictObjOn (sels.map (fun s => s.1.1)) fields m)) := by
  constructor
  · intro hrt
    have hok : ∀ f ∈ fields, fieldDecodeOk m f = true :=
      fun f hf => fieldRoundtrips_ok m f (hrt f hf)
    constructor
    · simp only [decode, decodeN]
      rw [fieldsLoop_success nm m fields [] [] hok (by simp) (by simp) hnd]
      simp
    · show JSON.obj (toJsonFields fields (decodedAttrs m fields)) = _
      rw [toJsonFields_matching m fields (decodedAttrs m fields)
        (fun f hf =>
          ⟨fun v hv => by
            rcases (decodedAttrs_lookup m fields hnd hrt f hf).1 v hv with ⟨d, h1, _, h3⟩
            exact ⟨d, h1, h3⟩,
           (decodedAttrs_lookup m fields hnd hrt f hf).2⟩)]
  · intro sels hal hsub hsnd hrtS
    have hcomp : (sels.map Prod.fst).map (fun f => f.1) = sels.map (fun s => s.1.1) := by
      simp [List.map_map]
    have hsnd2 : ((sels.map Prod.fst).map (fun f => f.1)).Nodup := by
      rw [hcomp]; exact hsnd
    have hrtS2 : ∀ g ∈ sels.map Prod.fst, fieldRoundtrips m g = true := by
      intro g hg
      rcases List.mem_map.mp hg with ⟨s, hs, rfl⟩
      exact hrtS s hs
    have hok2 : ∀ g ∈ sels.map Prod.fst, fieldDecodeOk m g = true :=
      fun g hg => fieldRoundtrips_ok m g (hrtS2 g hg)
    constructor
    · simp only [decode, decodeS]
      rw [selLoop_eq_fieldsLoop nm m sels [] [] hal,
        fieldsLoop_success nm m (sels.map Prod.fst) [] [] hok2 (by simp) (by simp) hsnd2]
      simp
    · have hmatch : ∀ f ∈ fields,
          (f.1 ∈ sels.map (fun s => s.1.1) →
            (∀ v, lookupAssoc m f.2.1 = some v →
              ∃ d, lookupAssoc (decodedAttrs m (sels.map Prod.fst)) f.1 = some d ∧
                toJsonValue f.2.2 d = v) ∧
            (lookupAssoc m f.2.1 = none →
              lookupAssoc (decodedAttrs m (sels.map Prod.fst)) f.1 = none)) ∧
          (f.1 ∉ sels.map (fun s => s.1.1) →
            lookupAssoc (decodedAttrs m (sels.map Prod.fst)) f.1 = none) := by
        intro f hf
        constructor
        · intro hin
          rcases List.mem_map.mp hin with ⟨s, hs, hseq⟩
          have hfeq : s.1 = f := nodup_names_inj fields hnd s.1 (hsub s hs) f hf hseq
          have hfmem : f ∈ sels.map Prod.fst :=
            hfeq ▸ List.mem_map_of_mem Prod.fst hs
          have hlk := decodedAttrs_lookup m (sels.map Prod.fst) hsnd2 hrtS2 f hfmem
          exact ⟨fun v hv => by
              rcases hlk.1 v hv with ⟨d, h1, _, h3⟩
              exact ⟨d, h1, h3⟩,
            hlk.2⟩
        · intro hnin
          refine lookupAssoc_eq_none _ _ ?_
          intro p hp hpe
          apply hnin
          have hk := decodedAttrs_keys m (sels.map Prod.fst) p hp
          rw [hcomp] at hk
          exact hpe ▸ hk
      show JSON.obj (toJsonFields fields (decodedAttrs m (sels.map Prod.fst))) = _
      rw [toJsonFields_matching_on m (sels.map (fun s => s.1.1)) fields
        (decodedAttrs m (sels.map Prod.fst)) hmatch]

theorem C1_witness :
    (decode (.container "type" "Person" [("id", "id", IDT), ("name", "name", StringT)])
      (.obj [("id", .str "42"), ("name", .str "Ada")]) none =
      .ok (.vobj none
        (decodedAttrs [("id", .str "42"), ("name", .str "Ada")]
          [("id", "id", IDT), ("name", "name", StringT)])
        (decodedCache [("id", .str "42"), ("name", .str "Ada")]
          [("id", "id", IDT), ("name", "name", StringT)])
        (.obj [("id", .str "42"), ("name", .str "Ada")])) ∧
    toJsonValue (.container "type" "Person" [("id", "id", IDT), ("name", "name", StringT)])
      (.vobj none
        (decodedAttrs [("id", .str "42"), ("name", .str "Ada")]
          [("id", "id", IDT), ("name", "name", StringT)])
        (decodedCache [("id", .str "42"), ("name", .str "Ada")]
          [("id", "id", IDT), ("name", "name", StringT)])
        (.obj [("id", .str "42"), ("name", .str "Ada")])) =
      .obj (restrictObj [("id", "id", IDT), ("name", "name", StringT)]
        [("id", .str "42"), ("name", .str "Ada")])) ∧
    (decode (.container "type" "Person" [("id", "id", IDT), ("name", "name", StringT)])
      (.obj [("id", .str "42"), ("name", .str "Ada")])
      (some [(("name", "name", StringT), none)]) =
      .ok (.vobj (some [(("name", "name", StringT), none)])
        (decodedAttrs [("id", .str "42"), ("name", .str "Ada")]
          (([(("name", "name", StringT), none)] : Sels).map Prod.fst))
        (decodedCache [("id", .str "42"), ("name", .str "Ada")]
          (([(("name", "name", StringT), none)] : Sels).map Prod.fst))
        (.obj [("id", .str "42"), ("name", .str "Ada")])) ∧
    toJsonValue (.container "type" "Person" [("id", "id", IDT), ("name", "name", StringT)])
      (.vobj (some [(("name", "name", StringT), none)])
        (decodedAttrs [("id", .str "42"), ("name", .str "Ada")]
          (([(("name", "name", StringT), none)] : Sels).map Prod.fst))
        (decodedCache [("id", .str "42"), ("name", .str "Ada")]
          (([(("name", "name", StringT), none)] : Sels).map Prod.fst))
        (.obj [("id", .str "42"), ("name", .str "Ada")])) =
      .obj (restrictObjOn (([(("name", "name", StringT), none)] : Sels).map (fun s => s.1.1))
        [("id", "id", IDT), ("name", "name", StringT)]
        [("id", .str "42"), ("name", .str "Ada")])) :=
  ⟨(C1_roundtrip "type" "Person" [("id", "id", IDT), ("name", "name", StringT)]
      [("id", .str "42"), ("name", .str "Ada")] (by decide)).1 (by decide),
   (C1_roundtrip "type" "Person" [("id", "id", IDT), ("name", "name", StringT)]
      [("id", .str "42"), ("name", .str "Ada")] (by decide)).2
     [(("name", "name", StringT), none)]
     (by decide)
     (by
       intro s hs
       rw [List.mem_singleton] at hs
       subst hs
       exact List.mem_cons_of_mem _ (List.mem_cons_self _ _))
     (by decide)
     (by decide)⟩

/-- C1 counterexample: an `Int` field whose JSON value is the string `"5"`
decodes successfully to the number 5 (Python `int("5")`), and `toJSON`
re-serializes it as the number 5 — so the decode/serialize roundtrip yields
`{"age": 5}`, not the subset `{"age": "5"}` of the original object, refuting
the claim that the result equals the restriction of the original JSON
exactly. -/
theorem C1_counterexample :
    decode (.container "type" "Person" [("age", "age", IntT)])
      (.obj [("age", .str "5")]) none =
      .ok (.vobj none [("age", .vjson (.num 5))] [("age", ("age", "age", IntT))]
        (.obj [("age", .str "5")])) ∧
    toJsonValue (.container "type" "Person" [("age", "age", IntT)])
      (.vobj none [("age", .vjson (.num 5))] [("age", ("age", "age", IntT))]
        (.obj [("age", .str "5")])) = .obj [("age", .num 5)] ∧
    restrictObj [("age", "age", IntT)] [("age", .str "5")] = [("age", .str "5")] ∧
    JSON.obj [("age", .num 5)] ≠ JSON.obj [("age", .str "5")] :=
  ⟨rfl, rfl, rfl, by decide⟩
